import Mathlib

/-!
Verification development for the n8n release monitor
(`n8n_monitor.py`, single-file Python program).

The program fetches the n8n release-notes page, extracts per-version
release records from the HTML, compares the newest record against a
stored snapshot, persists the new state and sends a notification when a
change is detected.

Shallow embedding used here:

* The parsed HTML page is modelled as a flat list of sibling `Node`s in
  document order (on the real page the `h2` version headings and the
  body content are siblings inside one article body).  An element node
  carries its tag name, its `get_text()` result and the `get_text()`
  results of its `li` descendants (used only for `ul`/`ol` tags);
  a text node (`NavigableString`) has no tag and no `get_text` method,
  matching the `hasattr(current, 'get_text')` guards in the source.
* Python strings are Lean `String`s; `str.strip()` only strips the six
  ASCII whitespace characters Python strips (non-ASCII whitespace is
  not modelled, no input here contains it).
* JSON dictionaries handled by `detect_changes` are association lists
  from keys to a `PyVal` (a string or a list of strings), so that
  Python truthiness of a dict (`if not previous_release:`) and
  `dict.get` with a default are modelled exactly.
* The orchestrator `run(mode="latest", monitor=True)` is modelled as a
  pure function from the fetch result, the stored snapshot, the notify
  flag and the outcome of the notification transport to the ordered
  list of externally visible effects plus the boolean success value
  that `main` turns into the process exit status.
-/

namespace N8n

/-! ### Python string primitives -/

/-- The characters removed by Python `str.strip()` (ASCII part). -/
def pyIsSpace (c : Char) : Bool :=
  c == ' ' || c == '\t' || c == '\n' || c == '\r' || c == '\x0b' || c == '\x0c'

/-- `str.strip()` on a character list. -/
def pyStripL (l : List Char) : List Char :=
  ((l.dropWhile pyIsSpace).reverse.dropWhile pyIsSpace).reverse

/-- Python `str.strip()`. -/
def pyStrip (s : String) : String := ⟨pyStripL s.toList⟩

/-- `pat.isPrefixOf l` written out on character lists. -/
def leadsL (pat l : List Char) : Bool :=
  match pat, l with
  | [], _ => true
  | _ :: _, [] => false
  | p :: ps, c :: cs => p == c && leadsL ps cs

/-- Substring containment on character lists (Python `pat in s`). -/
def containsSub (pat : List Char) : List Char → Bool
  | [] => pat.isEmpty
  | c :: t => leadsL pat (c :: t) || containsSub pat t

/-- Python `pat in s` for strings. -/
def pyIn (pat s : String) : Bool := containsSub pat.toList s.toList

/-- Python `s.replace('#', '')`: removes every `'#'` character. -/
def removeHash (s : String) : String := ⟨s.toList.filter (fun c => c ≠ '#')⟩

/-- Python `s.replace('\n', ' ')`. -/
def nlToSpace (s : String) : String :=
  ⟨s.toList.map (fun c => if c = '\n' then ' ' else c)⟩

/-- Python `s[:n]` for a nonnegative `n`. -/
def pyTakeStr (s : String) (n : Nat) : String := ⟨s.toList.take n⟩

/-- Python `len(s)` (number of code points). -/
def pyLen (s : String) : Nat := s.toList.length

/-- A string that is neither empty nor whitespace-only. -/
def notBlank (s : String) : Bool := s.toList.any (fun c => !pyIsSpace c)

/-! ### Data model: release records and HTML nodes -/

/-- One extracted release record (the dict built in `parse_all_releases`). -/
structure Release where
  version : String
  content : List String
  scraped_at : String
deriving DecidableEq, Repr

instance : Inhabited Release := ⟨⟨"", [], ""⟩⟩

/-- A node of the flattened HTML document: an element (tag name,
`get_text()` result, `get_text()` of its `li` descendants) or a bare
text node, which has no tag name and no `get_text` method. -/
inductive Node where
  | elem (tag : String) (text : String) (items : List String) : Node
  | textNode (s : String) : Node
deriving DecidableEq, Repr

/-- The condition selecting version headings and stopping the sibling
walks: an `h2` element whose text contains the marker token `"n8n@"`.
(`find_all('h2', string=...)` and the `get_text()` fallback coincide in
this flat model, where an element's text is its single string.) -/
def isMarkerH2 : Node → Bool
  | .elem tag text _ => tag == "h2" && pyIn "n8n@" text
  | .textNode _ => false

/-- Indices of all version headings, in document order
(`soup.find_all` returns matches in document order). -/
def headerIdxs (doc : List Node) : List Nat :=
  (List.range doc.length).filter (fun i => isMarkerH2 (doc.getD i (.textNode "")))

/-- First content pass of `parse_all_releases`: the `while current:`
loop over `next_sibling`, starting just after the section's heading.
BeautifulSoup tag equality (`==`/`!=`) is STRUCTURAL markup equality
(identity needs `is`), modelled as equality of `Node` values: `hdr` is
the section heading's value and `nh` the next selected heading's value
(`next_header`, absent for the last section).  The walk stops at a
node equal to `next_header`, or at a marker `h2` that differs from
`hdr` (`current != header`); a later marker `h2` markup-equal to `hdr`
does NOT stop the walk — it falls through to the capture step and its
text is appended like any other element's. -/
def firstPass : List Node → Node → Option Node → List String → List String
  | [], _, _, acc => acc
  | n :: rest, hdr, nh, acc =>
    if nh = some n then acc
    else if isMarkerH2 n ∧ n ≠ hdr then acc
    else
      match n with
      | .elem tag text items =>
        let t := pyStrip text
        if t = "" then firstPass rest hdr nh acc
        else if tag = "ul" ∨ tag = "ol" then
          firstPass rest hdr nh (acc ++ items.map (fun li => "• " ++ pyStrip li))
        else firstPass rest hdr nh (acc ++ [t])
      | .textNode _ => firstPass rest hdr nh acc

/-- Second content pass of `parse_all_releases`: the
`find_next_sibling` walk, which visits element siblings only and skips
appending a fragment already present in `content_elements`.  The stop
checks compare markup equality exactly as in `firstPass`
(`next_element == next_header`, `next_element != header`).  The
`processed_elements` id-set of the source is a no-op here because a
forward sibling walk never revisits a node. -/
def secondPass : List Node → Node → Option Node → List String → List String
  | [], _, _, acc => acc
  | .textNode _ :: rest, hdr, nh, acc => secondPass rest hdr nh acc
  | .elem tag text items :: rest, hdr, nh, acc =>
    if nh = some (Node.elem tag text items) then acc
    else if isMarkerH2 (.elem tag text items) ∧ Node.elem tag text items ≠ hdr then acc
    else
      let acc' :=
        if tag = "ul" ∨ tag = "ol" then
          items.foldl (fun a li =>
            let item := "• " ++ pyStrip li
            if item ∈ a then a else a ++ [item]) acc
        else
          let t := pyStrip text
          if t = "" then acc
          else if t ∈ acc then acc else acc ++ [t]
      secondPass rest hdr nh acc'

/-- Final cleanup of `parse_all_releases`: drop falsy (empty) items and
duplicates, preserving first-seen order (the `seen` set always holds
exactly the members of the accumulated list). -/
def cleanContent (l : List String) : List String :=
  l.foldl (fun acc item => if item ≠ "" ∧ item ∉ acc then acc ++ [item] else acc) []

/-- The `get_text()` of the node at index `hi` of the document. -/
def textAt (doc : List Node) (hi : Nat) : String :=
  match doc.getD hi (.textNode "") with
  | .elem _ t _ => t
  | .textNode s => s

/-- Build one release record for the heading at index `hi`, whose
structural value the walks compare against; `nh` is the next selected
heading's value: normalize the heading text (`strip()` then
`replace('#','')`), run both content passes over the following
siblings, and clean up. -/
def mkRelease (doc : List Node) (hi : Nat) (nh : Option Node) (ts : String) : Release :=
  let hdr := doc.getD hi (.textNode "")
  let raw := firstPass (doc.drop (hi + 1)) hdr nh []
  let raw2 := secondPass (doc.drop (hi + 1)) hdr nh raw
  { version := removeHash (pyStrip (textAt doc hi))
    content := cleanContent raw2
    scraped_at := ts }

/-- The `for i, header in enumerate(version_headers)` loop:
`next_header` is the following entry of the (possibly truncated)
heading list, or `None` for the last one; the walks receive its
structural value. -/
def buildReleases (doc : List Node) (ts : String) : List Nat → List Release
  | [] => []
  | hi :: rest =>
    mkRelease doc hi (rest.head?.map (fun i => doc.getD i (.textNode ""))) ts
      :: buildReleases doc ts rest

/-- Python `l[:k]` for an `int` slice bound `k` (negative bounds count
from the end, clamped at zero). -/
def pySliceTo (l : List Nat) (k : Int) : List Nat :=
  if 0 ≤ k then l.take k.toNat else l.take ((l.length : Int) + k).toNat

/-- `parse_all_releases(html_content, limit)`.  The `limit` is applied
with Python truthiness (`if limit:`), so `limit=0` is ignored; it
truncates the heading list before any content extraction. -/
def parse_all_releases (doc : List Node) (limit : Option Int) (ts : String) :
    List Release :=
  let hdrs := headerIdxs doc
  if hdrs.isEmpty then []
  else
    let hdrs := match limit with
      | some k => if k ≠ 0 then pySliceTo hdrs k else hdrs
      | none => hdrs
    buildReleases doc ts hdrs

/-- `parse_latest_release`: first element of `parse_all_releases`
with `limit=1`, or absent. -/
def parse_latest_release (doc : List Node) (ts : String) : Option Release :=
  (parse_all_releases doc (some 1) ts).head?

/-! ### JSON dictionaries and `detect_changes` -/

/-- A JSON value as far as this program inspects one: a string or a
list of strings (the shapes produced by `parse_all_releases`). -/
inductive PyVal where
  | vStr (s : String) : PyVal
  | vList (l : List String) : PyVal
deriving DecidableEq, Repr

/-- Rendering of a value inside an f-string.  For a string, Python
interpolates the string itself.  (For a list Python would interpolate
its `repr` with quoted elements; the quoting is not reproduced here
and no claim observes a rendered list.) -/
def pyToStr : PyVal → String
  | .vStr s => s
  | .vList l => "[" ++ String.intercalate ", " l ++ "]"

/-- A JSON dictionary: an association list of key/value pairs. -/
structure RelDict where
  pairs : List (String × PyVal)
deriving DecidableEq, Repr

/-- Python `d.get(k, default)`. -/
def pyGet (d : RelDict) (k : String) (dflt : PyVal) : PyVal :=
  match d.pairs.find? (fun kv => kv.1 == k) with
  | some kv => kv.2
  | none => dflt

/-- Python truthiness of an optional dict: `None` and the empty dict
are falsy, every dict with at least one key is truthy. -/
def pyTruthy : Option RelDict → Bool
  | none => false
  | some d => !d.pairs.isEmpty

/-- The dict `parse_all_releases` builds for a release. -/
def relToDict (r : Release) : RelDict :=
  ⟨[("version", .vStr r.version), ("content", .vList r.content),
    ("scraped_at", .vStr r.scraped_at)]⟩

/-- `detect_changes(current_release, previous_release)`.  The guard
`if not previous_release:` covers both `None` and an empty dict. -/
def detect_changes (current : RelDict) (previous : Option RelDict) : Bool × String :=
  if !pyTruthy previous then
    (true, "First time running - no previous data to compare")
  else
    let p := previous.getD ⟨[]⟩
    let current_version := pyGet current "version" (.vStr "")
    let previous_version := pyGet p "version" (.vStr "")
    if current_version ≠ previous_version then
      (true, "New version detected: " ++ pyToStr previous_version ++ " → "
        ++ pyToStr current_version)
    else
      let current_content := pyGet current "content" (.vList [])
      let previous_content := pyGet p "content" (.vList [])
      if current_content ≠ previous_content then
        (true, "Content updated for version " ++ pyToStr current_version)
      else
        (false, "No changes detected")

/-! ### Snapshot persistence: the history update of `save_release_data` -/

/-- The history update performed by `save_release_data`: prepend the
new release if the history is empty or its first (most recent) entry
has a different version, then cap the list at 50 entries; otherwise
leave the history file untouched.  History entries are modelled as
well-formed release records. -/
def updateHistory (history : List Release) (r : Release) : List Release :=
  match history with
  | [] => (r :: history).take 50
  | h :: _ =>
    if h.version ≠ r.version then (r :: history).take 50 else history

/-! ### Notification formatting -/

/-- `item.replace('\n', ' ').strip()` from the highlight loop. -/
def cleanItem (item : String) : String := pyStrip (nlToSpace item)

/-- The highlight cleanup: flatten to one line and truncate to 100
characters, with `"..."` replacing the tail when truncated
(`clean_item[:97] + "..."`). -/
def cleanTrunc (item : String) : String :=
  let c := cleanItem item
  if 100 < pyLen c then pyTakeStr c 97 ++ "..." else c

/-- The filter inside the highlight loop:
`if item.strip() and "Release date:" not in item:`. -/
def hlPred (item : String) : Bool :=
  decide (pyStrip item ≠ "") && !pyIn "Release date:" item

/-- One step of the highlight loop of `send_new_release_notification`:
conditionally append the cleaned, bullet-prefixed item. -/
def hlStep (a : List String) (item : String) : List String :=
  if hlPred item then a ++ ["• " ++ cleanTrunc item] else a

/-- The `body_parts` list built by `send_new_release_notification`
(the message is these lines joined with newlines).  The release-date
loop (`for item in content: ... break`) is the first match, the
highlight loop runs over `content[:2]`, and the footer is always
appended last. -/
def bodyParts (version : String) (content : List String)
    (changes_summary : String) (now : String) : List String :=
  let base := ["🎉 A new n8n release is available: " ++ version, ""]
  let withDate := base ++
    (match content.find? (fun item => pyIn "Release date:" item) with
     | some item =>
       ["📅 Release Date: "
         ++ pyStrip ((item.splitOn "Release date:").getLastD item)]
     | none => [])
  let withChanges := withDate ++
    (if changes_summary ≠ "" then ["", "📝 Changes:", changes_summary] else [])
  let withHl := withChanges ++
    (if content ≠ [] then
      ["", "🔍 Release Highlights:"] ++ (content.take 2).foldl hlStep []
     else [])
  withHl ++
    ["", "🔗 Full notes: https://docs.n8n.io/release-notes", "⏰ " ++ now]

/-- Truncation used by `generate_diff_summary` (80/77 variant). -/
def trunc80 (item : String) : String :=
  let c := cleanItem item
  if 80 < pyLen c then pyTakeStr c 77 ++ "..." else c

/-- `generate_diff_summary(current_release, previous_release)`.  The
`for item in content[:3]` loop with its conditional append is written
as filter-and-map over the first three fragments. -/
def generate_diff_summary (current : RelDict) (previous : Option RelDict) : String :=
  if !pyTruthy previous then "Initial release data captured"
  else
    let p := previous.getD ⟨[]⟩
    let current_version := pyGet current "version" (.vStr "")
    let previous_version := pyGet p "version" (.vStr "")
    if current_version ≠ previous_version then
      let content := match pyGet current "content" (.vList []) with
        | .vList l => l
        | .vStr _ => []
      let summary_parts :=
        ((content.take 3).filter
            (fun item => decide (item ≠ "") && !pyIn "Release date:" item)).map
          (fun item => "• " ++ trunc80 item)
      if summary_parts.isEmpty then "No detailed changes available"
      else String.intercalate "\n" summary_parts
    else
      "Release notes updated for " ++ pyToStr current_version

/-! ### Orchestrator: `run(mode="latest", monitor=True)` and `main` -/

/-- The externally visible effects of a monitor run, in the order the
code performs them: writing the snapshot files (`save_release_data`),
attempting a new-release notification, attempting an error
notification. -/
inductive Effect where
  | saveRelease (r : Release) : Effect
  | notifyRelease (r : Release) (summary : String) : Effect
  | notifyError (msg : String) : Effect
deriving DecidableEq, Repr

/-- `run(mode="latest", monitor=True, notify=notify)` as a pure
function.  `page` is the fetch result (already parsed into the node
model; `None` for a transport failure), `previous` the stored
snapshot, `sendOutcome` the success value returned by the notification
transport — the code only prints it, so the result cannot depend on
it.  Returns the ordered effect list and the boolean `run` returns,
which `main` maps to the exit status. -/
def runMonitor (page : Option (List Node)) (previous : Option RelDict)
    (notify : Bool) (sendOutcome : Bool) (ts : String) : List Effect × Bool :=
  let _ := sendOutcome
  match page with
  | none =>
    ((if notify then [.notifyError "Failed to fetch release notes page"] else []),
      false)
  | some doc =>
    match parse_latest_release doc ts with
    | none =>
      ((if notify then
          [.notifyError "Failed to extract latest release information"] else []),
        false)
    | some current =>
      let res := detect_changes (relToDict current) previous
      if res.1 then
        ([.saveRelease current] ++
          (if notify then
            [.notifyRelease current (generate_diff_summary (relToDict current) previous)]
           else []),
          true)
      else ([], true)

/-- `sys.exit(0 if success else 1)` in `main`. -/
def exitCode (success : Bool) : Nat := if success then 0 else 1

/-- Highlight selection as the SPEC words it, for comparison with the
code's selection in `bodyParts`: the first two content fragments that
are not the date fragment and whose trimmed length exceeds 10
characters, each flattened and truncated. -/
def specHighlights (content : List String) : List String :=
  ((content.filter
      (fun i => !pyIn "Release date:" i && decide (10 < pyLen (pyStrip i)))).take 2).map
    cleanTrunc

/-! ### Concrete test documents -/

/-- Markup with exactly two version headings and nothing else. -/
def doc2h : List Node := [.elem "h2" "n8n@1.2.0" [], .elem "h2" "n8n@1.1.0" []]

/-- Markup with one version heading followed by one paragraph with
text `t`. -/
def markerDoc (t : String) : List Node :=
  [.elem "h2" "n8n@1.0.0" [], .elem "p" t []]

/-- A paragraph body text that itself contains the version marker
token. -/
def markerText : String := "see n8n@0.9.9 notes"

/-- Markup with two MARKUP-EQUAL version headings: BeautifulSoup's
structural tag equality makes `current != header` false at the second
heading, so with limit 1 the walk does not stop there. -/
def docAA : List Node := [.elem "h2" "n8n@A" [], .elem "h2" "n8n@A" []]

/-- Content whose first fragment is short (trimmed length 5) and whose
second is long. -/
def content6 : List String :=
  ["short", "This is a sufficiently long and quite interesting release note fragment"]

/-- Markup with a single version heading and no content. -/
def doc8 : List Node := [.elem "h2" "n8n@1.0.0" []]

/-- The release `parse_latest_release` extracts from `doc8`. -/
def current8 : Release := ⟨"n8n@1.0.0", [], "t"⟩

/-- Markup where the same paragraph text appears twice. -/
def docDup : List Node :=
  [.elem "h2" "n8n@1.0.0" [], .elem "p" "a" [], .elem "p" "a" []]

/-! ## Helper lemmas -/

theorem pyGet_relToDict_version (r : Release) (d : PyVal) :
    pyGet (relToDict r) "version" d = .vStr r.version := rfl

theorem pyGet_relToDict_content (r : Release) (d : PyVal) :
    pyGet (relToDict r) "content" d = .vList r.content := rfl

/-! ## Claim C1 -/

/-- C1, counterexample: on markup with the two headings `"n8n@1.2.0"`
then `"n8n@1.1.0"` and `limit=1`, the single extracted release has
version `"n8n@1.2.0"`, not `"1.2.0"`: the code strips whitespace and
removes `'#'` characters but keeps the `"n8n@"` prefix of the heading
text. -/
theorem c1_counterexample :
    (parse_all_releases doc2h (some 1) "t").map Release.version = ["n8n@1.2.0"]
    ∧ ("n8n@1.2.0" : String) ≠ "1.2.0" := by decide

/-- C1 (amended): for markup containing exactly two version headings
with texts `"n8n@1.2.0"` and then `"n8n@1.1.0"`, extraction with
`limit=1` returns exactly one Release, whose version field equals the
full normalized heading text `"n8n@1.2.0"` (and whose content is
empty). -/
theorem c1_amended (ts : String) :
    parse_all_releases doc2h (some 1) ts = [⟨"n8n@1.2.0", [], ts⟩] := rfl

/-! ## Claim C2 -/

/-- C2: for every current Release and every previous Release-or-absent,
`detect_changes` applies the rules in order: absent previous (or the
version rule, then the ordered-content rule, then no change), with
exact, case- and whitespace-sensitive string and string-sequence
comparison and with the version rule ignoring content. -/
theorem c2_detect_rules (cur : Release) (prev : Option Release) :
    detect_changes (relToDict cur) (prev.map relToDict) =
      match prev with
      | none => (true, "First time running - no previous data to compare")
      | some p =>
        if cur.version ≠ p.version then
          (true, "New version detected: " ++ p.version ++ " → " ++ cur.version)
        else if cur.content ≠ p.content then
          (true, "Content updated for version " ++ cur.version)
        else (false, "No changes detected") := by
  cases prev with
  | none => rfl
  | some p =>
    by_cases hv : cur.version = p.version <;>
      by_cases hc : cur.content = p.content <;>
        simp [detect_changes, pyTruthy, relToDict, pyGet, pyToStr, hv, hc]

/-! ## Claim C4 -/

/-- C4, counterexample: a paragraph between two boundaries whose text
contains the version marker token `"n8n@"` IS captured as a content
fragment — neither content pass guards against the marker token in
non-heading nodes, so the claimed invariant fails. -/
theorem c4_counterexample :
    (parse_all_releases (markerDoc markerText) none "t").map Release.content
      = [[markerText]]
    ∧ pyIn "n8n@" markerText = true := by decide

/-- C4 (amended): a non-heading node's plain text is appended as a
content fragment whenever it is non-empty after stripping, regardless
of whether it contains the version marker token; fragments containing
the marker token can therefore appear in a produced Release. -/
theorem c4_amended (t ts : String) (h : pyStrip t ≠ "") :
    parse_all_releases (markerDoc t) none ts = [⟨"n8n@1.0.0", [pyStrip t], ts⟩] := by
  have hIdx : headerIdxs (markerDoc t) = [0] := rfl
  unfold parse_all_releases
  rw [hIdx]
  simp only [List.isEmpty_cons, if_false, Bool.false_eq_true, ite_false]
  show buildReleases (markerDoc t) ts [0] = _
  have hb : buildReleases (markerDoc t) ts [0]
      = [({ version := removeHash (pyStrip (textAt (markerDoc t) 0)),
            content := cleanContent
              (secondPass [Node.elem "p" t []] (Node.elem "h2" "n8n@1.0.0" []) none
                (firstPass [Node.elem "p" t []] (Node.elem "h2" "n8n@1.0.0" []) none [])),
            scraped_at := ts } : Release)] := rfl
  rw [hb]
  have h1 : firstPass [Node.elem "p" t []] (Node.elem "h2" "n8n@1.0.0" []) none []
      = [pyStrip t] := by
    simp [firstPass, isMarkerH2, h]
  have h2 : secondPass [Node.elem "p" t []] (Node.elem "h2" "n8n@1.0.0" []) none [pyStrip t]
      = [pyStrip t] := by
    simp [secondPass, isMarkerH2, h]
  have h3 : cleanContent [pyStrip t] = [pyStrip t] := by
    unfold cleanContent
    simp [List.foldl, h]
  rw [h1, h2, h3]
  rfl

/-- C4 amended, witness: the marker-containing paragraph text of the
counterexample satisfies the hypothesis and is captured. -/
theorem c4_amended_witness :
    parse_all_releases (markerDoc markerText) none "t"
      = [⟨"n8n@1.0.0", [pyStrip markerText], "t"⟩] :=
  c4_amended markerText "t" (by decide)

/-! ## Claim C5 -/

/-- C5, counterexample: saving versions `1.0.0`, `1.1.0`, `1.0.0` in
turn makes `1.0.0` appear twice in the history — the code only
compares against the most recent entry, so a version may recur
non-adjacently and the claimed "no version appears more than once"
fails. -/
theorem c5_counterexample :
    ¬ (((updateHistory (updateHistory (updateHistory [] ⟨"1.0.0", [], "t1"⟩)
          ⟨"1.1.0", [], "t2"⟩) ⟨"1.0.0", ["x"], "t3"⟩).map Release.version).Nodup) := by
  decide

theorem updateHistory_inv (h : List Release) (r : Release)
    (hl : h.length ≤ 50)
    (hc : List.Chain' (fun a b => a.version ≠ b.version) h) :
    (updateHistory h r).length ≤ 50
    ∧ List.Chain' (fun a b => a.version ≠ b.version) (updateHistory h r) := by
  cases h with
  | nil =>
    constructor
    · simp [updateHistory]
    · simp [updateHistory]
  | cons h0 t =>
    have hu : updateHistory (h0 :: t) r
        = if h0.version ≠ r.version then (r :: h0 :: t).take 50 else h0 :: t := rfl
    rw [hu]
    by_cases hv : h0.version ≠ r.version
    · rw [if_pos hv]
      constructor
      · rw [List.length_take]; exact inf_le_left
      · apply List.Chain'.take
        rw [List.chain'_cons]
        exact ⟨fun he => hv he.symm, hc⟩
    · rw [if_neg hv]
      exact ⟨hl, hc⟩

theorem foldl_updateHistory_inv (rs : List Release) :
    ∀ (h : List Release), h.length ≤ 50 →
      List.Chain' (fun a b => a.version ≠ b.version) h →
      (List.foldl updateHistory h rs).length ≤ 50
      ∧ List.Chain' (fun a b => a.version ≠ b.version)
          (List.foldl updateHistory h rs) := by
  induction rs with
  | nil => intro h hl hc; exact ⟨hl, hc⟩
  | cons r rs ih =>
    intro h hl hc
    have h1 := updateHistory_inv h r hl hc
    simpa using ih (updateHistory h r) h1.1 h1.2

/-- C5 (amended): after every sequence of snapshot save operations
starting from an empty history, the history has length at most 50 and
no two ADJACENT entries share a version (a version may recur
non-adjacently); a save whose version equals the most recent entry's
version leaves the history unchanged, and any other save puts the
saved release at the front (most-recent-first). -/
theorem c5_amended (rs : List Release) :
    (List.foldl updateHistory [] rs).length ≤ 50
    ∧ List.Chain' (fun a b => a.version ≠ b.version) (List.foldl updateHistory [] rs)
    ∧ (∀ (h : List Release) (r : Release),
        h.head?.map Release.version = some r.version → updateHistory h r = h)
    ∧ (∀ (h : List Release) (r : Release),
        h.head?.map Release.version ≠ some r.version →
        (updateHistory h r).head? = some r) := by
  refine ⟨(foldl_updateHistory_inv rs [] (by simp) (by simp)).1,
          (foldl_updateHistory_inv rs [] (by simp) (by simp)).2, ?_, ?_⟩
  · intro h r hv
    cases h with
    | nil => simp at hv
    | cons h0 t =>
      simp only [List.head?, Option.map_some', Option.some.injEq] at hv
      have hu : updateHistory (h0 :: t) r
          = if h0.version ≠ r.version then (r :: h0 :: t).take 50 else h0 :: t := rfl
      rw [hu, if_neg (by simp [hv])]
  · intro h r hv
    cases h with
    | nil => rfl
    | cons h0 t =>
      simp only [List.head?, Option.map_some', ne_eq, Option.some.injEq] at hv
      have hu : updateHistory (h0 :: t) r
          = if h0.version ≠ r.version then (r :: h0 :: t).take 50 else h0 :: t := rfl
      rw [hu, if_pos hv]
      rfl

/-- C5 amended, witness: concrete saves exercising the bound, the
unchanged-on-same-version case and the new-entry-at-front case. -/
theorem c5_amended_witness :
    (List.foldl updateHistory [] [(⟨"1.0.0", [], "t1"⟩ : Release)]).length ≤ 50
    ∧ updateHistory [⟨"1.0.0", [], "t1"⟩] ⟨"1.0.0", ["x"], "t2"⟩ = [⟨"1.0.0", [], "t1"⟩]
    ∧ (updateHistory [⟨"1.0.0", [], "t1"⟩] ⟨"1.1.0", [], "t2"⟩).head?
        = some ⟨"1.1.0", [], "t2"⟩ :=
  ⟨(c5_amended [⟨"1.0.0", [], "t1"⟩]).1,
   (c5_amended []).2.2.1 _ _ (by decide),
   (c5_amended []).2.2.2 _ _ (by decide)⟩

/-! ## Claim C10 -/

/-- C10, counterexample: when the previous value is an EMPTY dict,
`if not previous_release:` treats it like an absent value, so two
dicts both lacking the `version` and `content` fields do NOT compare
as unchanged — the result is `changed=true` (first run). -/
theorem c10_counterexample :
    (detect_changes ⟨[]⟩ (some ⟨[]⟩)).1 = true := by decide

/-- C10 (amended): `detect_changes` is total over dictionary inputs;
an absent previous value and an empty previous dict both yield the
first-run result, and for a NON-empty previous dict a missing
`version` field is treated as the empty string and a missing `content`
field as the empty list, so two dicts both lacking these fields (the
previous one non-empty) compare as unchanged. -/
theorem c10_amended :
    (∀ c : RelDict, detect_changes c none
        = (true, "First time running - no previous data to compare"))
    ∧ (∀ (c p : RelDict), p.pairs = [] →
        detect_changes c (some p)
          = (true, "First time running - no previous data to compare"))
    ∧ (∀ (c p : RelDict), p.pairs ≠ [] →
        pyGet c "version" (.vStr "") = pyGet p "version" (.vStr "") →
        pyGet c "content" (.vList []) = pyGet p "content" (.vList []) →
        detect_changes c (some p) = (false, "No changes detected")) := by
  refine ⟨fun c => rfl, ?_, ?_⟩
  · intro c p hp
    simp [detect_changes, pyTruthy, hp]
  · intro c p hp hv hc
    have ht : pyTruthy (some p) = true := by
      simp [pyTruthy, List.isEmpty_iff, hp]
    simp [detect_changes, ht, hv, hc]

/-- C10 amended, witness: two dicts that both lack `version` and
`content` (the previous one non-empty) compare as unchanged, and an
absent previous yields first-run. -/
theorem c10_amended_witness :
    detect_changes ⟨[("scraped_at", .vStr "a")]⟩ (some ⟨[("scraped_at", .vStr "b")]⟩)
      = (false, "No changes detected")
    ∧ detect_changes ⟨[]⟩ none
      = (true, "First time running - no previous data to compare") :=
  ⟨c10_amended.2.2 _ _ (by decide) (by decide) (by decide), c10_amended.1 _⟩

/-! ## Claim C6 -/

theorem hlFold (l : List String) (acc : List String) :
    l.foldl hlStep acc
      = acc ++ (l.filter hlPred).map (fun i => "• " ++ cleanTrunc i) := by
  induction l generalizing acc with
  | nil => simp
  | cons a l ih =>
    simp only [List.foldl_cons, hlStep, List.filter_cons]
    by_cases hp : hlPred a
    · simp [hp, ih]
    · simp [hp, ih]

/-- C6, counterexample: the 5-character fragment `"short"` appears as
a highlight line in the notification body, although its trimmed length
does not exceed 10 characters, so it is not among the
highlights the claim describes (there is no length threshold in the
code, and the code filters AFTER taking the first two fragments). -/
theorem c6_counterexample :
    "• short" ∈ bodyParts "1.0" content6 "" "NOW"
    ∧ "short" ∉ specHighlights content6
    ∧ cleanTrunc "short" = "short" := by decide

/-- C6 (amended): the new-release notification body consists of the
header, an optional release-date line, an optional changes block, then
— whenever content is non-empty — a highlights block listing, among
the FIRST 2 content fragments, those that are non-empty after trimming
and do not contain the date label, each flattened to one line and
truncated to 100 characters (97 plus an ellipsis when longer), and it
always ends with the fixed footer: the source-page link and the
formatted current timestamp. -/
theorem c6_amended (version changes_summary now : String) (content : List String) :
    bodyParts version content changes_summary now =
      ["🎉 A new n8n release is available: " ++ version, ""]
      ++ (match content.find? (fun item => pyIn "Release date:" item) with
          | some item =>
            ["📅 Release Date: "
              ++ pyStrip ((item.splitOn "Release date:").getLastD item)]
          | none => [])
      ++ (if changes_summary ≠ "" then ["", "📝 Changes:", changes_summary] else [])
      ++ (if content ≠ [] then
            ["", "🔍 Release Highlights:"]
            ++ ((content.take 2).filter hlPred).map (fun i => "• " ++ cleanTrunc i)
          else [])
      ++ ["", "🔗 Full notes: https://docs.n8n.io/release-notes", "⏰ " ++ now]
    ∧ (((content.take 2).filter hlPred).map (fun i => "• " ++ cleanTrunc i)).length ≤ 2 := by
  constructor
  · unfold bodyParts
    rw [hlFold]
    simp [List.append_assoc]
  · rw [List.length_map]
    exact le_trans (List.length_filter_le _ _) (by simp [List.length_take])

/-! ## Claims C8 and C9: the monitor orchestrator -/

theorem runMonitor_detect (d : List Node) (p2 : Option RelDict)
    (notify sendOutcome : Bool) (ts : String) (current : Release)
    (hcur : parse_latest_release d ts = some current) :
    runMonitor (some d) p2 notify sendOutcome ts
      = if (detect_changes (relToDict current) p2).1 then
          ([.saveRelease current] ++
            (if notify then
              [.notifyRelease current
                (generate_diff_summary (relToDict current) p2)]
             else []),
            true)
        else ([], true) := by
  have hr : runMonitor (some d) p2 notify sendOutcome ts
      = (match parse_latest_release d ts with
         | none =>
           ((if notify then
              [Effect.notifyError "Failed to extract latest release information"]
             else []), false)
         | some current =>
           if (detect_changes (relToDict current) p2).1 then
             ([.saveRelease current] ++
               (if notify then
                 [.notifyRelease current
                   (generate_diff_summary (relToDict current) p2)]
                else []),
               true)
           else ([], true)) := rfl
  rw [hr, hcur]

/-- C8: in monitor mode, whenever detection returns `changed=false`,
the run performs no effect at all — no persistence write and no
notification — and exits with status zero; moreover a snapshot save
appears among the run's effects only when detection returned
`changed=true`. -/
theorem c8_no_change_frame (d : List Node) (prev : Option RelDict)
    (notify sendOutcome : Bool) (ts : String) (current : Release)
    (hcur : parse_latest_release d ts = some current)
    (hnc : (detect_changes (relToDict current) prev).1 = false) :
    runMonitor (some d) prev notify sendOutcome ts = ([], true)
    ∧ exitCode (runMonitor (some d) prev notify sendOutcome ts).2 = 0
    ∧ ∀ (p2 : Option RelDict) (r : Release),
        Effect.saveRelease r ∈ (runMonitor (some d) p2 notify sendOutcome ts).1 →
        (detect_changes (relToDict current) p2).1 = true := by
  have h0 : runMonitor (some d) prev notify sendOutcome ts = ([], true) := by
    rw [runMonitor_detect d prev notify sendOutcome ts current hcur, hnc]
    simp
  refine ⟨h0, by rw [h0]; rfl, ?_⟩
  intro p2 r hmem
  rw [runMonitor_detect d p2 notify sendOutcome ts current hcur] at hmem
  by_cases hch : (detect_changes (relToDict current) p2).1 = true
  · exact hch
  · rw [if_neg hch] at hmem
    simp at hmem

/-- C8, witness: with a stored snapshot equal to the freshly extracted
release, nothing is saved or sent and the exit status is zero; with no
stored snapshot, a save effect occurs and detection indeed returned
`changed=true`. -/
theorem c8_witness :
    runMonitor (some doc8) (some (relToDict current8)) true true "t" = ([], true)
    ∧ exitCode (runMonitor (some doc8) (some (relToDict current8)) true true "t").2 = 0
    ∧ (detect_changes (relToDict current8) none).1 = true := by
  have h := c8_no_change_frame doc8 (some (relToDict current8)) true true "t" current8
    (by decide) (by decide)
  exact ⟨h.1, h.2.1, h.2.2 none current8 (by decide)⟩

/-- C9: in monitor mode, whenever detection returns `changed=true`,
the effect trace starts with the persistence write and the
notification send (when notifications are enabled) strictly follows
it, and the run reports success whatever the outcome of the
notification send (`sendOutcome` is universally quantified and absent
from the result). -/
theorem c9_persist_before_notify (d : List Node) (prev : Option RelDict)
    (notify sendOutcome : Bool) (ts : String) (current : Release)
    (hcur : parse_latest_release d ts = some current)
    (hc : (detect_changes (relToDict current) prev).1 = true) :
    runMonitor (some d) prev notify sendOutcome ts
      = (Effect.saveRelease current ::
          (if notify then
            [Effect.notifyRelease current
              (generate_diff_summary (relToDict current) prev)]
           else []),
         true) := by
  rw [runMonitor_detect d prev notify sendOutcome ts current hcur, hc]
  simp

/-- C9, witness: on a first run (no stored snapshot) with a failing
notification transport, the trace is exactly the save followed by the
notification attempt, and the run still reports success. -/
theorem c9_witness :
    runMonitor (some doc8) none true false "t"
      = ([Effect.saveRelease current8,
          Effect.notifyRelease current8 "Initial release data captured"], true) :=
  (c9_persist_before_notify doc8 none true false "t" current8 (by decide)
    (by decide)).trans (by decide)

/-! ## Claim C3: limit truncation -/

theorem buildReleases_length (doc : List Node) (ts : String) :
    ∀ l : List Nat, (buildReleases doc ts l).length = l.length := by
  intro l
  induction l with
  | nil => rfl
  | cons hi rest ih =>
    have e : buildReleases doc ts (hi :: rest)
        = mkRelease doc hi (rest.head?.map (fun i => doc.getD i (.textNode ""))) ts
          :: buildReleases doc ts rest := rfl
    rw [e]
    simp [ih]

theorem buildReleases_map_version (doc : List Node) (ts : String) :
    ∀ l : List Nat, (buildReleases doc ts l).map Release.version
      = l.map (fun hi => removeHash (pyStrip (textAt doc hi))) := by
  intro l
  induction l with
  | nil => rfl
  | cons hi rest ih =>
    have e : buildReleases doc ts (hi :: rest)
        = mkRelease doc hi (rest.head?.map (fun i => doc.getD i (.textNode ""))) ts
          :: buildReleases doc ts rest := rfl
    rw [e, List.map_cons, List.map_cons, ih]
    rfl

/-- C3, counterexample, refuting two parts of the claim.  First, the
supplied limit k = 0 < N = 2 on `doc2h` returns 2 releases, not 0
(`if limit:` is falsy for a zero limit, so the limit is ignored).
Second, content beyond the truncated boundary list CAN be extracted:
on `docAA` (two markup-equal headings) with limit 1, the walk does not
stop at the second heading — BeautifulSoup tag equality is structural,
so the `current != header` conjunct of the stop check is false — and
the second section's heading text `"n8n@A"` becomes content of the
single extracted release, whereas the unlimited parse's first release
has empty content. -/
theorem c3_counterexample :
    ((headerIdxs doc2h).length = 2
      ∧ (parse_all_releases doc2h (some 0) "t").length = 2)
    ∧ ((parse_all_releases docAA (some 1) "t").map Release.content = [["n8n@A"]]
      ∧ (parse_all_releases docAA none "t").map Release.content = [[], []]) := by
  decide

/-- C3 (amended): for every supplied POSITIVE limit k, extraction
returns at most k Release records; their versions are those of the
first k version headings, in document order (the boundary list is
truncated to k before content extraction), and when additionally
k < N (the number of version headings) exactly k releases are
returned.  (A zero limit is ignored, and a section's content can
include a later, markup-equal heading's text, so no claim is made
that content from beyond the k-th section is never extracted.) -/
theorem c3_amended (doc : List Node) (ts : String) (k : Int) (hk : 1 ≤ k) :
    (parse_all_releases doc (some k) ts).map Release.version
      = ((parse_all_releases doc none ts).map Release.version).take k.toNat
    ∧ (parse_all_releases doc (some k) ts).length ≤ k.toNat
    ∧ (k.toNat < (headerIdxs doc).length →
        (parse_all_releases doc (some k) ts).length = k.toNat) := by
  have hk0 : k ≠ 0 := by omega
  have hk1 : (0 : Int) ≤ k := by omega
  have hslice : pySliceTo (headerIdxs doc) k = (headerIdxs doc).take k.toNat := by
    unfold pySliceTo
    rw [if_pos hk1]
  have e1 : parse_all_releases doc (some k) ts
      = if (headerIdxs doc).isEmpty then []
        else buildReleases doc ts
          (if k ≠ 0 then pySliceTo (headerIdxs doc) k else headerIdxs doc) := rfl
  have e2 : parse_all_releases doc none ts
      = if (headerIdxs doc).isEmpty then []
        else buildReleases doc ts (headerIdxs doc) := rfl
  by_cases hH : (headerIdxs doc).isEmpty
  · rw [e1, e2, if_pos hH, if_pos hH]
    have hlen : (headerIdxs doc).length = 0 := by
      simp [List.isEmpty_iff.1 hH]
    exact ⟨by simp, by simp, fun hlt => by omega⟩
  · rw [e1, e2, if_neg hH, if_neg hH, if_pos hk0, hslice]
    refine ⟨?_, ?_, ?_⟩
    · rw [buildReleases_map_version, buildReleases_map_version, ← List.map_take]
    · rw [buildReleases_length, List.length_take]
      exact inf_le_left
    · intro hlt
      rw [buildReleases_length, List.length_take]
      omega

/-- C3 amended, witness: on `doc2h` with limit 1 < N = 2, the limited
parse has the first heading's version, at most one release, and
exactly one. -/
theorem c3_amended_witness :
    (parse_all_releases doc2h (some 1) "t").map Release.version
      = ((parse_all_releases doc2h none "t").map Release.version).take 1
    ∧ (parse_all_releases doc2h (some 1) "t").length ≤ 1
    ∧ (parse_all_releases doc2h (some 1) "t").length = 1 :=
  ⟨(c3_amended doc2h "t" 1 (by decide)).1,
   (c3_amended doc2h "t" 1 (by decide)).2.1,
   (c3_amended doc2h "t" 1 (by decide)).2.2 (by decide)⟩

/-! ## Claim C7: content invariants -/

theorem dropWhile_head_not (p : Char → Bool) :
    ∀ (l : List Char) (c : Char) (t : List Char),
      l.dropWhile p = c :: t → p c = false := by
  intro l
  induction l with
  | nil => intro c t h; simp at h
  | cons a l ih =>
    intro c t h
    rw [List.dropWhile_cons] at h
    by_cases hpa : p a = true
    · rw [if_pos hpa] at h
      exact ih c t h
    · rw [if_neg hpa] at h
      injection h with h1 _
      subst h1
      simpa using hpa

theorem notBlank_pyStrip (s : String) (h : pyStrip s ≠ "") :
    notBlank (pyStrip s) = true := by
  have hl : ((s.toList.dropWhile pyIsSpace).reverse.dropWhile pyIsSpace).reverse ≠ [] := by
    intro he
    apply h
    show (⟨pyStripL s.toList⟩ : String) = ""
    unfold pyStripL
    rw [he]
  obtain ⟨c, t, hct⟩ : ∃ c t,
      (s.toList.dropWhile pyIsSpace).reverse.dropWhile pyIsSpace = c :: t := by
    cases hd : (s.toList.dropWhile pyIsSpace).reverse.dropWhile pyIsSpace with
    | nil => exact absurd (by rw [hd]; rfl) hl
    | cons c t => exact ⟨c, t, rfl⟩
  have hc : pyIsSpace c = false := dropWhile_head_not pyIsSpace _ c t hct
  have hmem : c ∈ (pyStrip s).toList := by
    show c ∈ pyStripL s.toList
    unfold pyStripL
    rw [hct, List.mem_reverse]
    simp
  unfold notBlank
  rw [List.any_eq_true]
  exact ⟨c, hmem, by rw [hc]; rfl⟩

theorem notBlank_bullet (s : String) : notBlank ("• " ++ s) = true := by
  unfold notBlank
  have he : ("• " ++ s).toList = '•' :: ' ' :: s.toList := rfl
  rw [he, List.any_cons]
  have hb : (!pyIsSpace '•') = true := by decide
  rw [hb, Bool.true_or]

theorem bulletFold_mem :
    ∀ (items acc : List String) (f : String),
      f ∈ items.foldl (fun a li =>
        let item := "• " ++ pyStrip li
        if item ∈ a then a else a ++ [item]) acc →
      f ∈ acc ∨ notBlank f = true := by
  intro items
  induction items with
  | nil => intro acc f hf; exact Or.inl hf
  | cons li items ih =>
    intro acc f hf
    rw [List.foldl_cons] at hf
    rcases ih _ f hf with h | h
    · dsimp only at h
      by_cases hm : ("• " ++ pyStrip li) ∈ acc
      · rw [if_pos hm] at h
        exact Or.inl h
      · rw [if_neg hm] at h
        rcases List.mem_append.1 h with h | h
        · exact Or.inl h
        · rw [List.mem_singleton] at h
          subst h
          exact Or.inr (notBlank_bullet _)
    · exact Or.inr h

theorem firstPass_mem :
    ∀ (rest : List Node) (hdr : Node) (nh : Option Node) (acc : List String) (f : String),
      f ∈ firstPass rest hdr nh acc → f ∈ acc ∨ notBlank f = true := by
  intro rest
  induction rest with
  | nil => intro hdr nh acc f hf; exact Or.inl hf
  | cons n rest ih =>
    intro hdr nh acc f hf
    simp only [firstPass] at hf
    by_cases h1 : nh = some n
    · rw [if_pos h1] at hf; exact Or.inl hf
    · rw [if_neg h1] at hf
      by_cases h2 : isMarkerH2 n = true ∧ n ≠ hdr
      · rw [if_pos h2] at hf; exact Or.inl hf
      · rw [if_neg h2] at hf
        cases n with
        | elem tag text items =>
          dsimp only at hf
          by_cases h3 : pyStrip text = ""
          · rw [if_pos h3] at hf
            exact ih _ _ _ f hf
          · rw [if_neg h3] at hf
            by_cases h4 : tag = "ul" ∨ tag = "ol"
            · rw [if_pos h4] at hf
              rcases ih _ _ _ f hf with h | h
              · rcases List.mem_append.1 h with h | h
                · exact Or.inl h
                · rw [List.mem_map] at h
                  obtain ⟨li, _, hli⟩ := h
                  subst hli
                  exact Or.inr (notBlank_bullet _)
              · exact Or.inr h
            · rw [if_neg h4] at hf
              rcases ih _ _ _ f hf with h | h
              · rcases List.mem_append.1 h with h | h
                · exact Or.inl h
                · rw [List.mem_singleton] at h
                  subst h
                  exact Or.inr (notBlank_pyStrip text h3)
              · exact Or.inr h
        | textNode s =>
          exact ih _ _ _ f hf

theorem secondPass_mem :
    ∀ (rest : List Node) (hdr : Node) (nh : Option Node) (acc : List String) (f : String),
      f ∈ secondPass rest hdr nh acc → f ∈ acc ∨ notBlank f = true := by
  intro rest
  induction rest with
  | nil => intro hdr nh acc f hf; exact Or.inl hf
  | cons n rest ih =>
    intro hdr nh acc f hf
    cases n with
    | textNode s =>
      simp only [secondPass] at hf
      exact ih _ _ _ f hf
    | elem tag text items =>
      simp only [secondPass] at hf
      by_cases h1 : nh = some (Node.elem tag text items)
      · rw [if_pos h1] at hf; exact Or.inl hf
      · rw [if_neg h1] at hf
        by_cases h2 : isMarkerH2 (Node.elem tag text items) = true
            ∧ Node.elem tag text items ≠ hdr
        · rw [if_pos h2] at hf; exact Or.inl hf
        · rw [if_neg h2] at hf
          rcases ih _ _ _ f hf with h | h
          · by_cases h4 : tag = "ul" ∨ tag = "ol"
            · rw [if_pos h4] at h
              exact bulletFold_mem items acc f h
            · rw [if_neg h4] at h
              by_cases h3 : pyStrip text = ""
              · rw [if_pos h3] at h
                exact Or.inl h
              · rw [if_neg h3] at h
                by_cases h5 : pyStrip text ∈ acc
                · rw [if_pos h5] at h
                  exact Or.inl h
                · rw [if_neg h5] at h
                  rcases List.mem_append.1 h with h | h
                  · exact Or.inl h
                  · rw [List.mem_singleton] at h
                    subst h
                    exact Or.inr (notBlank_pyStrip text h3)
          · exact Or.inr h

theorem cleanFold_inv :
    ∀ (suf pre acc : List String),
      acc.Nodup →
      (∀ a ∈ acc, a ∈ pre ∧ a ≠ "") →
      (∀ x ∈ pre, x = "" ∨ x ∈ acc) →
      List.Pairwise (fun a b => pre.indexOf a < pre.indexOf b) acc →
      (List.foldl
          (fun acc item => if item ≠ "" ∧ item ∉ acc then acc ++ [item] else acc)
          acc suf).Nodup
      ∧ (∀ a ∈ List.foldl
            (fun acc item => if item ≠ "" ∧ item ∉ acc then acc ++ [item] else acc)
            acc suf, a ∈ pre ++ suf ∧ a ≠ "")
      ∧ List.Pairwise (fun a b => (pre ++ suf).indexOf a < (pre ++ suf).indexOf b)
          (List.foldl
            (fun acc item => if item ≠ "" ∧ item ∉ acc then acc ++ [item] else acc)
            acc suf) := by
  intro suf
  induction suf with
  | nil =>
    intro pre acc h1 h2 h3 h4
    simp only [List.foldl_nil, List.append_nil]
    exact ⟨h1, h2, h4⟩
  | cons x suf ih =>
    intro pre acc h1 h2 h3 h4
    simp only [List.foldl_cons]
    have key : (pre ++ [x]) ++ suf = pre ++ x :: suf := by simp
    by_cases hx : x ≠ "" ∧ x ∉ acc
    · rw [if_pos hx]
      have hxpre : x ∉ pre := by
        intro hxp
        rcases h3 x hxp with h | h
        · exact hx.1 h
        · exact hx.2 h
      have h1' : (acc ++ [x]).Nodup := by
        rw [List.nodup_append]
        refine ⟨h1, List.nodup_singleton x, ?_⟩
        intro a ha hax
        rw [List.mem_singleton] at hax
        subst hax
        exact hx.2 ha
      have h2' : ∀ a ∈ acc ++ [x], a ∈ pre ++ [x] ∧ a ≠ "" := by
        intro a ha
        rcases List.mem_append.1 ha with ha | ha
        · exact ⟨List.mem_append_left _ (h2 a ha).1, (h2 a ha).2⟩
        · rw [List.mem_singleton] at ha
          subst ha
          exact ⟨List.mem_append_right _ (by simp), hx.1⟩
      have h3' : ∀ y ∈ pre ++ [x], y = "" ∨ y ∈ acc ++ [x] := by
        intro y hy
        rcases List.mem_append.1 hy with hy | hy
        · rcases h3 y hy with h | h
          · exact Or.inl h
          · exact Or.inr (List.mem_append_left _ h)
        · exact Or.inr (List.mem_append_right _ hy)
      have h4' : List.Pairwise
          (fun a b => (pre ++ [x]).indexOf a < (pre ++ [x]).indexOf b) (acc ++ [x]) := by
        rw [List.pairwise_append]
        refine ⟨?_, List.pairwise_singleton _ _, ?_⟩
        · refine List.Pairwise.imp_of_mem ?_ h4
          intro a b ha hb hab
          rw [List.indexOf_append_of_mem (h2 a ha).1,
            List.indexOf_append_of_mem (h2 b hb).1]
          exact hab
        · intro a ha b hb
          rw [List.mem_singleton] at hb
          subst hb
          rw [List.indexOf_append_of_mem (h2 a ha).1,
            List.indexOf_append_of_not_mem hxpre]
          have hlt := List.indexOf_lt_length.2 (h2 a ha).1
          omega
      have hres := ih (pre ++ [x]) (acc ++ [x]) h1' h2' h3' h4'
      rw [key] at hres
      exact hres
    · rw [if_neg hx]
      push_neg at hx
      have h2' : ∀ a ∈ acc, a ∈ pre ++ [x] ∧ a ≠ "" := fun a ha =>
        ⟨List.mem_append_left _ (h2 a ha).1, (h2 a ha).2⟩
      have h3' : ∀ y ∈ pre ++ [x], y = "" ∨ y ∈ acc := by
        intro y hy
        rcases List.mem_append.1 hy with hy | hy
        · exact h3 y hy
        · rw [List.mem_singleton] at hy
          subst hy
          by_cases hx0 : y = ""
          · exact Or.inl hx0
          · exact Or.inr (hx hx0)
      have h4' : List.Pairwise
          (fun a b => (pre ++ [x]).indexOf a < (pre ++ [x]).indexOf b) acc := by
        refine List.Pairwise.imp_of_mem ?_ h4
        intro a b ha hb hab
        rw [List.indexOf_append_of_mem (h2 a ha).1,
          List.indexOf_append_of_mem (h2 b hb).1]
        exact hab
      have hres := ih (pre ++ [x]) acc h1 h2' h3' h4'
      rw [key] at hres
      exact hres

theorem cleanContent_spec (l : List String) :
    (cleanContent l).Nodup
    ∧ (∀ a ∈ cleanContent l, a ∈ l ∧ a ≠ "")
    ∧ List.Pairwise (fun a b => l.indexOf a < l.indexOf b) (cleanContent l) := by
  have h := cleanFold_inv l [] [] List.nodup_nil (by simp) (by simp) (by simp)
  simpa [cleanContent] using h

theorem mem_buildReleases (doc : List Node) (ts : String) :
    ∀ (l : List Nat) (r : Release), r ∈ buildReleases doc ts l →
      ∃ hi nh, r = mkRelease doc hi nh ts := by
  intro l
  induction l with
  | nil => intro r hr; simp [buildReleases] at hr
  | cons hi rest ih =>
    intro r hr
    have e : buildReleases doc ts (hi :: rest)
        = mkRelease doc hi (rest.head?.map (fun i => doc.getD i (.textNode ""))) ts
          :: buildReleases doc ts rest := rfl
    rw [e] at hr
    rcases List.mem_cons.1 hr with h | h
    · exact ⟨hi, rest.head?.map (fun i => doc.getD i (.textNode "")), h⟩
    · exact ih r h

theorem parse_all_eq (doc : List Node) (limit : Option Int) (ts : String) :
    parse_all_releases doc limit ts
      = if (headerIdxs doc).isEmpty then []
        else buildReleases doc ts (match limit with
          | some k => if k ≠ 0 then pySliceTo (headerIdxs doc) k else headerIdxs doc
          | none => headerIdxs doc) := by
  cases limit with
  | none => rfl
  | some k => rfl

theorem mem_parse_all (doc : List Node) (limit : Option Int) (ts : String)
    (r : Release) (hr : r ∈ parse_all_releases doc limit ts) :
    ∃ hi nh, r = mkRelease doc hi nh ts := by
  rw [parse_all_eq] at hr
  by_cases hH : (headerIdxs doc).isEmpty
  · rw [if_pos hH] at hr
    simp at hr
  · rw [if_neg hH] at hr
    exact mem_buildReleases doc ts _ r hr

theorem mkRelease_content (doc : List Node) (hi : Nat) (nh : Option Node) (ts : String) :
    (mkRelease doc hi nh ts).content.Nodup
    ∧ ∀ f ∈ (mkRelease doc hi nh ts).content, notBlank f = true := by
  have e : (mkRelease doc hi nh ts).content
      = cleanContent (secondPass (doc.drop (hi + 1)) (doc.getD hi (.textNode "")) nh
          (firstPass (doc.drop (hi + 1)) (doc.getD hi (.textNode "")) nh [])) := rfl
  rw [e]
  refine ⟨(cleanContent_spec _).1, ?_⟩
  intro f hf
  have h1 := (cleanContent_spec _).2.1 f hf
  rcases secondPass_mem _ _ _ _ f h1.1 with h | h
  · rcases firstPass_mem _ _ _ _ f h with h' | h'
    · simp at h'
    · exact h'
  · exact h

/-- C7: every Release produced by extraction (for any limit) has
duplicate-free content — no fragment equals an earlier fragment — with
no empty and no whitespace-only fragment; and the deduplication step
`cleanContent` keeps the surviving fragments ordered by the position
of their first occurrence in the raw fragment list. -/
theorem c7_content_invariants (doc : List Node) (limit : Option Int) (ts : String) :
    (∀ r ∈ parse_all_releases doc limit ts,
      r.content.Nodup ∧ ∀ f ∈ r.content, notBlank f = true)
    ∧ ∀ raw : List String,
        List.Pairwise (fun a b => raw.indexOf a < raw.indexOf b) (cleanContent raw) := by
  refine ⟨?_, fun raw => (cleanContent_spec raw).2.2⟩
  intro r hr
  obtain ⟨hi, nh, hrel⟩ := mem_parse_all doc limit ts r hr
  subst hrel
  exact mkRelease_content doc hi nh ts

/-- C1 amended, witness: the amended statement at a concrete
timestamp. -/
theorem c1_amended_witness :
    parse_all_releases doc2h (some 1) "ts0" = [⟨"n8n@1.2.0", [], "ts0"⟩] :=
  c1_amended "ts0"

/-- C2, witness: a version change is reported with the version rule
even though the contents agree. -/
theorem c2_detect_rules_witness :
    detect_changes (relToDict ⟨"1.1.0", ["a"], "t"⟩)
      ((some (⟨"1.0.0", ["a"], "s"⟩ : Release)).map relToDict)
      = (true, "New version detected: 1.0.0 → 1.1.0") :=
  (c2_detect_rules ⟨"1.1.0", ["a"], "t"⟩ (some ⟨"1.0.0", ["a"], "s"⟩)).trans (by decide)

/-- C6 amended, witness: the decomposition at a concrete input. -/
theorem c6_amended_witness :
    bodyParts "1.0" content6 "" "NOW"
      = ["🎉 A new n8n release is available: " ++ "1.0", ""]
        ++ (match content6.find? (fun item => pyIn "Release date:" item) with
            | some item =>
              ["📅 Release Date: "
                ++ pyStrip ((item.splitOn "Release date:").getLastD item)]
            | none => [])
        ++ (if ("" : String) ≠ "" then ["", "📝 Changes:", ""] else [])
        ++ (if content6 ≠ [] then
              ["", "🔍 Release Highlights:"]
              ++ ((content6.take 2).filter hlPred).map (fun i => "• " ++ cleanTrunc i)
            else [])
        ++ ["", "🔗 Full notes: https://docs.n8n.io/release-notes", "⏰ " ++ "NOW"]
    ∧ (((content6.take 2).filter hlPred).map (fun i => "• " ++ cleanTrunc i)).length ≤ 2 :=
  c6_amended "1.0" "" "NOW" content6

/-- C7, witness: on markup repeating the paragraph text `"a"` twice,
the extracted release has deduplicated, non-blank content, and
`cleanContent` on a concrete raw list is first-occurrence ordered. -/
theorem c7_content_invariants_witness :
    ((⟨"n8n@1.0.0", ["a"], "t"⟩ : Release).content.Nodup
      ∧ notBlank "a" = true)
    ∧ List.Pairwise
        (fun a b => (["a", "x"] : List String).indexOf a
          < (["a", "x"] : List String).indexOf b)
        (cleanContent ["a", "x"]) := by
  have h := c7_content_invariants docDup none "t"
  refine ⟨?_, h.2 ["a", "x"]⟩
  have h1 := h.1 ⟨"n8n@1.0.0", ["a"], "t"⟩ (by decide)
  exact ⟨h1.1, h1.2 "a" (by decide)⟩

end N8n
